import Mathlib

/-
Verification of the extraction/normalization/conversion pipeline of the
ytsubsdown repository (src/api/youtube_downloader.py) against its
natural-language specification.

The Python source is shallowly embedded: pure helper functions become Lean
functions over List Char / String / ℤ; CPython float values are modelled as
exact rationals represented by explicit numerator/denominator pairs (Frac,
below), so that every operation the claims exercise is exact and computable
by the kernel; CPython int() and float() string conversions are embedded as
executable partial parsers; the regular-expression searches the source
performs are embedded as executable scanners specialized to the concrete
patterns of the source, with Python's leftmost-first backtracking semantics
worked out per pattern.  Unicode-only divergences (Python \s and \d also
accept non-ASCII whitespace and digits) are out of modelled scope: the model
uses the ASCII classes, which cover every input the claims and the source's
own regexes are concerned with.
-/

/-! ## Exact rationals as explicit fractions

CPython floats are IEEE-754 doubles; the claims' inputs (decimal attribute
strings, the claims' example literals) all denote exactly representable
values on the paths the claims exercise, so the model uses exact rational
arithmetic.  A fraction is kept unnormalized (no gcd), which keeps every
operation kernel-computable.  All fractions the embedded code constructs
have a positive denominator (lemmas below), and the comparison operations
are the rational ones under that precondition. -/

structure Frac where
  num : ℤ
  den : ℕ
deriving DecidableEq, Repr

/-- The rational a fraction denotes (meaningful when den is positive). -/
def Frac.toRat (a : Frac) : ℚ := (a.num : ℚ) / (a.den : ℚ)

def Frac.ofInt (n : ℤ) : Frac := ⟨n, 1⟩

/-- Rational addition of fractions (cross multiplication, no normalization). -/
def Frac.add (a b : Frac) : Frac :=
  ⟨a.num * (b.den : ℤ) + b.num * (a.den : ℤ), a.den * b.den⟩

/-- Multiplication of a fraction by an integer. -/
def Frac.mulInt (a : Frac) (m : ℤ) : Frac := ⟨a.num * m, a.den⟩

/-- Rational order on fractions with positive denominators: a ≤ b. -/
def Frac.le (a b : Frac) : Bool := a.num * (b.den : ℤ) ≤ b.num * (a.den : ℤ)

/-- Rational strict order on fractions with positive denominators: a < b. -/
def Frac.lt (a b : Frac) : Bool := a.num * (b.den : ℤ) < b.num * (a.den : ℤ)

/-- Floor of a / m for a positive natural m (Python float floor-division by
an integer constant, composed with the exact int() cast of its integral
result). -/
def Frac.floorDivNat (a : Frac) (m : ℕ) : ℤ := Int.fdiv a.num ((a.den : ℤ) * m)

/-- Python float modulus a % m for a positive natural m:
a - m * floor(a / m), kept over the same denominator. -/
def Frac.fmodNat (a : Frac) (m : ℕ) : Frac :=
  ⟨a.num - (m : ℤ) * (a.den : ℤ) * a.floorDivNat m, a.den⟩

/-- CPython int() applied to a float value: truncation toward zero. -/
def Frac.truncInt (a : Frac) : ℤ := Int.tdiv a.num (a.den : ℤ)

/-! ## Python string primitives -/

/-- ASCII whitespace, as matched by the \s class and str.strip on the inputs
in modelled scope (space, tab, newline, carriage return, vertical tab,
form feed). -/
def pyIsSpace (c : Char) : Bool :=
  c = ' ' ∨ c = '\t' ∨ c = '\n' ∨ c = '\r' ∨ c = '\x0b' ∨ c = '\x0c'

/-- str.strip() on a character list: drop whitespace from both ends. -/
def stripList (cs : List Char) : List Char :=
  ((cs.dropWhile pyIsSpace).reverse.dropWhile pyIsSpace).reverse

/-- str.strip() on a String. -/
def pyStrip (s : String) : String :=
  String.mk (stripList s.data)

/-- Numeric value of an ASCII digit. -/
def digitVal (c : Char) : ℕ := c.toNat - 48

/-- Scan a run of ASCII digits in which single underscores may stand between
two digits (CPython's numeric-literal underscore rule for int()/float()).
Returns (accumulated value, number of digits consumed, rest).  The caller
must have checked that the first character is a digit; a trailing or doubled
underscore is left in the rest (and then rejected by the callers, which
require the rest to be empty or a specific continuation). -/
def digitsU : List Char → ℕ → ℕ → ℕ × ℕ × List Char
  | [], acc, cnt => (acc, cnt, [])
  | '_' :: rest, acc, cnt =>
    match rest with
    | d :: rest' =>
      if d.isDigit then digitsU rest' (acc * 10 + digitVal d) (cnt + 1)
      else (acc, cnt, '_' :: d :: rest')
    | [] => (acc, cnt, ['_'])
  | c :: rest, acc, cnt =>
    if c.isDigit then digitsU rest (acc * 10 + digitVal c) (cnt + 1)
    else (acc, cnt, c :: rest)

/-- Parse a digit run (with underscore grouping) whose first character must be
a digit; none otherwise. -/
def parseDigitsU (cs : List Char) : Option (ℕ × ℕ × List Char) :=
  match cs with
  | c :: _ => if c.isDigit then some (digitsU cs 0 0) else none
  | [] => none

/-- CPython int(str): optional surrounding whitespace, optional sign, then a
nonempty underscore-grouped digit run consuming the whole rest. -/
def pyInt? (s : String) : Option ℤ :=
  let cs := stripList s.data
  let signAndRest : ℤ × List Char :=
    match cs with
    | '-' :: r => (-1, r)
    | '+' :: r => (1, r)
    | r => (1, r)
  match parseDigitsU signAndRest.2 with
  | some (v, _, []) => some (signAndRest.1 * (v : ℤ))
  | _ => none

/-- Assemble the float value sgn * (ip . fp) * 10^e from the parsed pieces
(fcnt = number of fraction digits). -/
def mkPyFloat (sgn : ℤ) (ip fp fcnt : ℕ) (e : ℤ) : Frac :=
  let num0 : ℤ := sgn * ((ip : ℤ) * (10 : ℤ) ^ fcnt + (fp : ℤ))
  if 0 ≤ e then ⟨num0 * (10 : ℤ) ^ e.toNat, 10 ^ fcnt⟩
  else ⟨num0, 10 ^ fcnt * 10 ^ (-e).toNat⟩

/-- Grammar of CPython float(str) after whitespace stripping: optional sign,
then (digits [. digits] | . digits), then an optional decimal exponent,
consuming the whole rest.  Returns (sign, integer part, fraction part,
fraction digit count, exponent).  The non-finite spellings inf/infinity/nan
that CPython also accepts have no rational value and are modelled as none
(no claim reaches them; the source paths that would combine them with int()
raise an uncaught OverflowError). -/
def pyFloatParse (cs : List Char) : Option (ℤ × ℕ × ℕ × ℕ × ℤ) :=
  let signAndRest : ℤ × List Char :=
    match cs with
    | '-' :: r => (-1, r)
    | '+' :: r => (1, r)
    | r => (1, r)
  let sgn := signAndRest.1
  let afterSign := signAndRest.2
  let intPart : ℕ × ℕ × List Char :=
    match parseDigitsU afterSign with
    | some (v, n, r) => (v, n, r)
    | none => (0, 0, afterSign)
  let afterInt := intPart.2.2
  let fracPart : ℕ × ℕ × List Char :=
    match afterInt with
    | '.' :: r =>
      match parseDigitsU r with
      | some (v, n, r') => (v, n, r')
      | none => (0, 0, r)
    | r => (0, 0, r)
  let afterFrac := fracPart.2.2
  if intPart.2.1 = 0 ∧ fracPart.2.1 = 0 then none
  else
    match afterFrac with
    | 'e' :: r | 'E' :: r =>
      let esign : ℤ × List Char :=
        match r with
        | '-' :: r' => (-1, r')
        | '+' :: r' => (1, r')
        | r' => (1, r')
      match parseDigitsU esign.2 with
      | some (ev, _, []) => some (sgn, intPart.1, fracPart.1, fracPart.2.1, esign.1 * (ev : ℤ))
      | _ => none
    | [] => some (sgn, intPart.1, fracPart.1, fracPart.2.1, 0)
    | _ => none

/-- CPython float(str) over exact rationals. -/
def pyFloat? (s : String) : Option Frac :=
  (pyFloatParse (stripList s.data)).map fun t =>
    mkPyFloat t.1 t.2.1 t.2.2.1 t.2.2.2.1 t.2.2.2.2

/-- Zero-pad a natural number to width 2 (Python format spec 02). -/
def pad2 (n : ℕ) : String :=
  if n < 10 then "0" ++ toString n else toString n

/-- Zero-pad a natural number to width 3 (Python format spec 03). -/
def pad3 (n : ℕ) : String :=
  if n < 100 then "0" ++ pad2 n else toString n

/-- Zero-pad a natural number to width 4 (strftime %Y for the year ranges the
claims exercise). -/
def pad4 (n : ℕ) : String :=
  if n < 1000 then "0" ++ pad3 n else toString n

/-! ## seconds_to_srt_time (source lines 115-126) -/

/-- Lines 115-126: convert a time in seconds to the SRT timestamp format
HH:MM:SS,mmm.  Negative inputs are clamped to zero first; the int() casts of
the source truncate toward zero, which on the nonnegative values remaining
after the clamp equals the floor. -/
def seconds_to_srt_time (secondsFloat : Frac) : String :=
  let s := if secondsFloat.lt (Frac.ofInt 0) then Frac.ofInt 0 else secondsFloat
  let hours := (s.floorDivNat 3600).toNat
  let minutes := ((s.fmodNat 3600).floorDivNat 60).toNat
  let secs := (s.fmodNat 60).truncInt.toNat
  let milliseconds := ((s.fmodNat 1).mulInt 1000).truncInt.toNat
  pad2 hours ++ ":" ++ pad2 minutes ++ ":" ++ pad2 secs ++ "," ++ pad3 milliseconds

/-! ## sanitize_filename (source lines 100-113) -/

/-- The characters of the character class of line 109, invalid in filenames. -/
def isBadFileChar (c : Char) : Bool :=
  c = '<' ∨ c = '>' ∨ c = ':' ∨ c = '"' ∨ c = '/' ∨ c = '\\' ∨ c = '|' ∨ c = '?' ∨ c = '*'

/-- re.sub of one-or-more invalid filename characters by a single underscore
(line 109), as a left-to-right scan: the flag records whether the previous
character was part of an invalid run (whose underscore is already emitted). -/
def squashBadAux : Bool → List Char → List Char
  | _, [] => []
  | prevBad, c :: rest =>
    if isBadFileChar c then
      if prevBad then squashBadAux true rest
      else '_' :: squashBadAux true rest
    else c :: squashBadAux false rest

/-- re.sub of one-or-more whitespace characters by a single space (line 111),
as a left-to-right scan. -/
def squashWsAux : Bool → List Char → List Char
  | _, [] => []
  | prevWs, c :: rest =>
    if pyIsSpace c then
      if prevWs then squashWsAux true rest
      else ' ' :: squashWsAux true rest
    else c :: squashWsAux false rest

/-- Lines 100-113: sanitize a string for use as a filename.  Empty input
yields "untitled"; otherwise runs of invalid characters become single
underscores, runs of whitespace become single spaces, surrounding
whitespace is stripped, and the result is truncated to 200 characters. -/
def sanitize_filename (name : String) : String :=
  if name = "" then "untitled"
  else
    let l1 := squashBadAux false name.data
    let l2 := squashWsAux false l1
    String.mk ((stripList l2).take 200)

/-! ## parse_view_count (source lines 13-41) -/

/-- Match of the pattern of one-or-more-whitespace view s-optional
one-or-more-whitespace (case-insensitive, all whitespace optional) at the
head of the input: returns the rest after the match, or none.  All three
character classes of the pattern are disjoint, so the greedy quantifiers
never backtrack and the match consumes the maximal whitespace run on either
side of the literal. -/
def matchViewsAt (cs : List Char) : Option (List Char) :=
  match cs.dropWhile pyIsSpace with
  | c1 :: c2 :: c3 :: c4 :: rest =>
    if c1.toLower = 'v' ∧ c2.toLower = 'i' ∧ c3.toLower = 'e' ∧ c4.toLower = 'w' then
      match rest with
      | c5 :: rest' =>
        if c5.toLower = 's' then some (rest'.dropWhile pyIsSpace)
        else some (rest.dropWhile pyIsSpace)
      | [] => some []
    else none
  | _ => none

/-- re.sub removing every occurrence of the views pattern (line 21), scanning
left to right and restarting after each removed match; fueled by the input
length (each match consumes at least the four literal characters). -/
def stripViewsAux : ℕ → List Char → List Char
  | 0, cs => cs
  | _ + 1, [] => []
  | fuel + 1, c :: rest =>
    match matchViewsAt (c :: rest) with
    | some rest' => stripViewsAux fuel rest'
    | none => c :: stripViewsAux fuel rest

/-- Line 21: remove the views word (and surrounding whitespace) everywhere,
then strip. -/
def stripViews (s : String) : List Char :=
  stripList (stripViewsAux s.data.length s.data)

/-- One iteration of the multiplier loop of lines 29-35: if the uppercased
string ends with the suffix, attempt float() on the string without its last
character and scale; none both when the suffix does not match and when
float() raises (the source continues with the next suffix in both cases). -/
def tryMult (cs : List Char) (suffix : Char) (mult : ℤ) : Option ℤ :=
  match cs.getLast? with
  | some c =>
    if c.toUpper = suffix then
      (pyFloat? (String.mk cs.dropLast)).map fun q => (q.mulInt mult).truncInt
    else none
  | none => none

/-- Lines 23-41 on the residue left after removing the views word: the K, M,
B multiplier suffixes are tried in that order; then the residue with commas
removed is parsed as an int; none when everything fails. -/
def parseViewCore (viewStr : List Char) : Option ℤ :=
  match tryMult viewStr 'K' 1000 with
  | some n => some n
  | none =>
    match tryMult viewStr 'M' 1000000 with
    | some n => some n
    | none =>
      match tryMult viewStr 'B' 1000000000 with
      | some n => some n
      | none => pyInt? (String.mk (viewStr.filter (fun c => decide (c ≠ ','))))

/-- Lines 13-41: parse a view-count string to an integer.  Empty input and
empty residue after removing the views word yield none; otherwise the
multiplier/comma logic of parseViewCore runs on the residue. -/
def parse_view_count (viewCountStr : String) : Option ℤ :=
  if viewCountStr = "" then none
  else
    let viewStr := stripViews viewCountStr
    if viewStr = [] then none
    else parseViewCore viewStr

/-! ## Dates (datetime.date arithmetic used by parse_publish_date) -/

/-- A calendar date as Python's datetime holds it (year, month, day).  The
time-of-day component of datetime.now() never influences the source's
output (replace keeps it, whole-day timedeltas keep it, and strftime of
the date fields ignores it), so it is not modelled. -/
structure PyDate where
  year : ℤ
  month : ℤ
  day : ℤ
deriving DecidableEq, Repr

/-- Gregorian leap year, as datetime uses. -/
def isLeapYear (y : ℤ) : Bool :=
  y % 4 = 0 ∧ (y % 100 ≠ 0 ∨ y % 400 = 0)

/-- Number of days in a month of a year, as datetime uses. -/
def daysInMonth (y m : ℤ) : ℤ :=
  if m = 2 then (if isLeapYear y then 29 else 28)
  else if m = 4 ∨ m = 6 ∨ m = 9 ∨ m = 11 then 30
  else 31

/-- The validity check datetime performs on constructed dates
(datetime.MINYEAR = 1, datetime.MAXYEAR = 9999). -/
def PyDate.valid (d : PyDate) : Bool :=
  1 ≤ d.year ∧ d.year ≤ 9999 ∧ 1 ≤ d.month ∧ d.month ≤ 12 ∧
    1 ≤ d.day ∧ d.day ≤ daysInMonth d.year d.month

/-- datetime.replace(year=y): the new date is validated; an invalid
combination raises ValueError, modelled as none (the source catches it,
falls through, and returns None). -/
def PyDate.replaceYear (t : PyDate) (y : ℤ) : Option PyDate :=
  let r : PyDate := ⟨y, t.month, t.day⟩
  if r.valid then some r else none

/-- datetime.replace(year=y, month=m), validated likewise. -/
def PyDate.replaceYearMonth (t : PyDate) (y m : ℤ) : Option PyDate :=
  let r : PyDate := ⟨y, m, t.day⟩
  if r.valid then some r else none

/-- Days since 1970-01-01 of a Gregorian civil date (the standard
era/year-of-era computation).  Division is Euclidean; every dividend is
nonnegative on the supported domain (year at least 0), where Euclidean,
floor and truncating division agree. -/
def daysFromCivil (y m d : ℤ) : ℤ :=
  let y1 := y - (if m ≤ 2 then 1 else 0)
  let era := Int.ediv y1 400
  let yoe := y1 - era * 400
  let mp := if 2 < m then m - 3 else m + 9
  let doy := Int.ediv (153 * mp + 2) 5 + d - 1
  let doe := yoe * 365 + Int.ediv yoe 4 - Int.ediv yoe 100 + doy
  era * 146097 + doe - 719468

/-- Civil date of a count of days since 1970-01-01 (inverse of
daysFromCivil on the supported domain). -/
def civilFromDays (z : ℤ) : PyDate :=
  let z1 := z + 719468
  let era := Int.ediv z1 146097
  let doe := z1 - era * 146097
  let yoe := Int.ediv (doe - Int.ediv doe 1460 + Int.ediv doe 36524 - Int.ediv doe 146096) 365
  let y := yoe + era * 400
  let doy := doe - (365 * yoe + Int.ediv yoe 4 - Int.ediv yoe 100)
  let mp := Int.ediv (5 * doy + 2) 153
  let d := doy - Int.ediv (153 * mp + 2) 5 + 1
  let m := mp + (if mp < 10 then 3 else -9)
  ⟨y + (if m ≤ 2 then 1 else 0), m, d⟩

/-- datetime minus timedelta(days=n): counted through the day number.  A
result outside [date(1,1,1), date(9999,12,31)] makes CPython raise an
OverflowError that the source does not catch; that crash state is modelled
as none (no claim reaches it). -/
def PyDate.subDays (t : PyDate) (n : ℤ) : Option PyDate :=
  let z := daysFromCivil t.year t.month t.day - n
  if daysFromCivil 1 1 1 ≤ z ∧ z ≤ daysFromCivil 9999 12 31 then some (civilFromDays z)
  else none

/-- strftime of a date as Y-m-d with zero padding (%Y padding below year
1000 is C-library dependent in CPython; every year the claims exercise is
at least 1000). -/
def pyStrftimeDate (d : PyDate) : String :=
  pad4 d.year.toNat ++ "-" ++ pad2 d.month.toNat ++ "-" ++ pad2 d.day.toNat

/-! ## parse_publish_date (source lines 43-98) -/

/-- The fixed month-name table of lines 58-62. -/
def monthNames : List (String × String) :=
  [("jan", "01"), ("feb", "02"), ("mar", "03"), ("apr", "04"),
   ("may", "05"), ("jun", "06"), ("jul", "07"), ("aug", "08"),
   ("sep", "09"), ("oct", "10"), ("nov", "11"), ("dec", "12")]

/-- Numeric value of a digit run. -/
def natOfDigits (ds : List Char) : ℕ :=
  ds.foldl (fun a c => a * 10 + digitVal c) 0

/-- Match of the full-date pattern (three letters, whitespace, one or two
digits, optional comma, whitespace, four digits) at the head of the input,
returning the three captured groups.  The greedy day quantifier never
succeeds on a digit run of length three or more (both its expansions leave
a digit where whitespace is required), so the match requires the maximal
digit run to have length one or two; the other quantifiers face disjoint
character classes and never backtrack. -/
def matchFullDateAt (cs : List Char) : Option (List Char × List Char × List Char) :=
  match cs with
  | a :: b :: c :: rest =>
    if a.isAlpha ∧ b.isAlpha ∧ c.isAlpha then
      match rest with
      | w :: _ =>
        if pyIsSpace w then
          let r2 := rest.dropWhile pyIsSpace
          let ds := r2.takeWhile Char.isDigit
          if ds.length = 1 ∨ ds.length = 2 then
            let r3 := r2.drop ds.length
            let r4 : List Char :=
              match r3 with
              | ',' :: t => t
              | t => t
            match r4 with
            | w2 :: _ =>
              if pyIsSpace w2 then
                match r4.dropWhile pyIsSpace with
                | d1 :: d2 :: d3 :: d4 :: _ =>
                  if d1.isDigit ∧ d2.isDigit ∧ d3.isDigit ∧ d4.isDigit then
                    some ([a, b, c], ds, [d1, d2, d3, d4])
                  else none
                | _ => none
              else none
            | [] => none
          else none
        else none
      | [] => none
    else none
  | _ => none

/-- re.search of the full-date pattern: leftmost matching position wins. -/
def searchFullDate : List Char → Option (List Char × List Char × List Char)
  | [] => none
  | c :: rest =>
    match matchFullDateAt (c :: rest) with
    | some r => some r
    | none => searchFullDate rest

/-- The unit alternative of the relative-date pattern. -/
inductive RelUnit where
  | year
  | month
  | week
  | day
deriving DecidableEq, Repr

/-- Case-insensitive literal match: consume the lowercase literal, returning
the rest. -/
def matchCI : List Char → List Char → Option (List Char)
  | [], cs => some cs
  | _ :: _, [] => none
  | p :: ps, c :: cs => if c.toLower = p then matchCI ps cs else none

/-- Continuation of the relative-date pattern after its unit word: optional
s, whitespace, ago (case-insensitive). -/
def matchRelTail (cs : List Char) : Bool :=
  let r : List Char :=
    match cs with
    | s :: t => if s.toLower = 's' then t else s :: t
    | [] => []
  match r with
  | w :: _ =>
    if pyIsSpace w then (matchCI "ago".data (r.dropWhile pyIsSpace)).isSome
    else false
  | [] => false

/-- Match of the relative-date pattern (digits, whitespace, unit, optional s,
whitespace, ago; case-insensitive) at the head of the input.  The four unit
alternatives start with distinct letters, so at most one can match at a
position and the alternation needs no backtracking; the digit and
whitespace quantifiers face disjoint classes likewise. -/
def matchRelativeAt (cs : List Char) : Option (ℕ × RelUnit) :=
  let ds := cs.takeWhile Char.isDigit
  if ds = [] then none
  else
    match cs.drop ds.length with
    | w :: _ =>
      if pyIsSpace w then
        let r2 := (cs.drop ds.length).dropWhile pyIsSpace
        match matchCI "year".data r2 with
        | some r3 => if matchRelTail r3 then some (natOfDigits ds, RelUnit.year) else none
        | none =>
          match matchCI "month".data r2 with
          | some r3 => if matchRelTail r3 then some (natOfDigits ds, RelUnit.month) else none
          | none =>
            match matchCI "week".data r2 with
            | some r3 => if matchRelTail r3 then some (natOfDigits ds, RelUnit.week) else none
            | none =>
              match matchCI "day".data r2 with
              | some r3 => if matchRelTail r3 then some (natOfDigits ds, RelUnit.day) else none
              | none => none
      else none
    | [] => none

/-- re.search of the relative-date pattern: leftmost matching position wins. -/
def searchRelative : List Char → Option (ℕ × RelUnit)
  | [] => none
  | c :: rest =>
    match matchRelativeAt (c :: rest) with
    | some r => some r
    | none => searchRelative rest

/-- The while loop of lines 83-85: add 12 to the month and subtract one from
the year until the month is positive.  For a valid current date the loop
runs at most amount+1 times, which the fuel covers. -/
def normalizeMonthAux : ℕ → ℤ → ℤ → ℤ × ℤ
  | 0, m, y => (m, y)
  | fuel + 1, m, y => if m ≤ 0 then normalizeMonthAux fuel (m + 12) (y - 1) else (m, y)

/-- Lines 76-94: resolve a matched relative date against the current date.
Invalid replace results (ValueError, caught at line 95) are none. -/
def resolveRelative (today : PyDate) (amount : ℕ) (u : RelUnit) : Option PyDate :=
  match u with
  | RelUnit.year => today.replaceYear (today.year - amount)
  | RelUnit.month =>
    let p := normalizeMonthAux (amount + 1) (today.month - amount) today.year
    today.replaceYearMonth p.2 p.1
  | RelUnit.week => today.subDays (7 * amount)
  | RelUnit.day => today.subDays amount

/-- Lines 43-98: parse a publish-date string to Y-m-d.  The full-date shape
is tried first; on a match whose month abbreviation is in the table the
formatted date is returned (the year group is interpolated verbatim, the
day zero-padded to two digits).  Otherwise the relative shape is resolved
against the current date (passed here as the today argument in place of
datetime.now()).  None when neither path produces a value. -/
def parse_publish_date (today : PyDate) (dateStr : String) : Option String :=
  if dateStr = "" then none
  else
    let cs := stripList dateStr.data
    let fullResult : Option String :=
      match searchFullDate cs with
      | some (mon, ds, ys) =>
        match monthNames.lookup (String.mk (mon.map Char.toLower)) with
        | some mm => some (String.mk ys ++ "-" ++ mm ++ "-" ++ pad2 (natOfDigits ds))
        | none => none
      | none => none
    match fullResult with
    | some r => some r
    | none =>
      match searchRelative cs with
      | some (amount, u) => (resolveRelative today amount u).map pyStrftimeDate
      | none => none

/-! ## Subtitle XML to SRT conversion (source lines 369-449) -/

/-- Helper for the newline-collapsing re.sub of line 414: when the input
begins with a whitespace prefix containing a newline, return the suffix
after the last newline of that maximal whitespace prefix (the greedy
backtracking match of whitespace-star followed by a newline); none when
the whitespace prefix contains no newline. -/
def nlRunSplit : List Char → Option (List Char)
  | [] => none
  | c :: rest =>
    if pyIsSpace c then
      match nlRunSplit rest with
      | some r => some r
      | none => if c = '\n' then some rest else none
    else none

/-- re.sub of newline whitespace-star newline by a single newline (line 414),
scanning left to right and continuing after each replaced match; fueled by
the input length (each step consumes at least one character). -/
def collapseNlAux : ℕ → List Char → List Char
  | 0, cs => cs
  | _ + 1, [] => []
  | fuel + 1, c :: rest =>
    if c = '\n' then
      match nlRunSplit rest with
      | some rest' => '\n' :: collapseNlAux fuel rest'
      | none => '\n' :: collapseNlAux fuel rest
    else c :: collapseNlAux fuel rest

/-- The newline-collapsing substitution of line 414. -/
def collapseNl (cs : List Char) : List Char :=
  collapseNlAux cs.length cs

/-- One timed-text element as the converter inspects it: the four timing
attributes as element.get returns them (none when absent), and the list of
raw content parts the loops of lines 404-411 accumulate (the element's
descendant text nodes in document order, followed by the pieces derived
from its br descendants).  The XML tree structure itself is library
territory (xml.etree); the converter only consumes it through these
observations. -/
structure SubElem where
  startAttr : Option String
  beginAttr : Option String
  durAttr : Option String
  endAttr : Option String
  parts : List String
deriving DecidableEq, Repr

/-- Python or between two attribute reads (line 383): an empty string is
falsy, so it falls through to the second operand. -/
def attrOr (a b : Option String) : Option String :=
  match a with
  | some s => if s = "" then b else some s
  | none => b

/-- Lines 413-414: join the raw parts, strip, collapse newline runs. -/
def contentOf (e : SubElem) : String :=
  String.mk (collapseNl (stripList (String.join e.parts).data))

/-- One SRT cue as the emission of lines 417-420 determines it. -/
structure Cue where
  index : ℕ
  startSec : Frac
  endSec : Frac
  text : String
deriving DecidableEq, Repr

/-- The body of the element loop (lines 382-420) for the element at 0-based
position i: none when the element is skipped (no start or begin attribute,
unparseable time value, missing duration and end, or empty content), and
the emitted cue otherwise.  The emitted index is i+1, taken from the raw
loop counter. -/
def mkCue? (i : ℕ) (e : SubElem) : Option Cue :=
  match attrOr e.startAttr e.beginAttr with
  | none => none
  | some startStr =>
    match pyFloat? startStr with
    | none => none
    | some startSec =>
      let endSec? : Option Frac :=
        match e.durAttr with
        | some durStr => (pyFloat? durStr).map fun d => startSec.add d
        | none =>
          match e.endAttr with
          | some endStr => pyFloat? endStr
          | none => none
      match endSec? with
      | none => none
      | some endSec =>
        let content := contentOf e
        if content = "" then none
        else some ⟨i + 1, startSec, endSec, content⟩

/-- The element loop of lines 382-420, carrying the enumerate counter. -/
def parseCuesFrom : ℕ → List SubElem → List Cue
  | _, [] => []
  | i, e :: rest =>
    match mkCue? i e with
    | some c => c :: parseCuesFrom (i + 1) rest
    | none => parseCuesFrom (i + 1) rest

/-- The cues emitted for an element list, counter starting at zero. -/
def parseCues (es : List SubElem) : List Cue :=
  parseCuesFrom 0 es

/-- A parsed subtitle document, observed through the two findall calls of
lines 378-380: its text elements and its p elements. -/
structure SubtitleDoc where
  textElems : List SubElem
  pElems : List SubElem
deriving DecidableEq, Repr

/-- Lines 378-380: select the text elements, falling back to the p elements
when there are none. -/
def selectedElems (doc : SubtitleDoc) : List SubElem :=
  if doc.textElems = [] then doc.pElems else doc.textElems

/-- The four lines appended per emitted cue (lines 417-420). -/
def cueLines (c : Cue) : List String :=
  [toString c.index,
   seconds_to_srt_time c.startSec ++ " --> " ++ seconds_to_srt_time c.endSec,
   c.text, ""]

/-- Lines 376-427 on an already-parsed document: the accumulated SRT lines,
empty string when none were emitted, newline-joined otherwise. -/
def srtOfDoc (doc : SubtitleDoc) : String :=
  let srtLines := (parseCues (selectedElems doc)).flatMap cueLines
  if srtLines = [] then "" else String.intercalate "\n" srtLines

/-- Lines 369-433.  The input is the outcome of stripping the first default
xmlns declaration and parsing the payload with xml.etree (library code,
abstracted here): none models an ET.ParseError, which the source turns
into a None return; a parsed document is converted. -/
def parse_subtitle_xml_to_srt (parsed : Option SubtitleDoc) : Option String :=
  parsed.map srtOfDoc

/-- Lines 435-449: fetch outcome (none models a transport/HTTP failure, which
_fetch_subtitle_xml turns into None) composed with the converter; an empty
or whitespace-only body short-circuits to the empty SRT document.  The
parseXml argument abstracts the xmlns-stripping plus xml.etree parse of
the fetched text. -/
def get_subtitle_srt (fetched : Option String) (parseXml : String → Option SubtitleDoc) :
    Option String :=
  match fetched with
  | none => none
  | some xmlContent =>
    if pyStrip xmlContent = "" then some ""
    else parse_subtitle_xml_to_srt (parseXml xmlContent)

/-! ## JSON values (for the player response) -/

/-- A parsed JSON document as json.loads returns it.  Numbers are kept as
exact fractions (json.loads yields Python ints and floats; the claims never
exercise a value where the float rounding of the decimal literal matters). -/
inductive JValue where
  | null
  | bool (b : Bool)
  | num (f : Frac)
  | str (s : String)
  | arr (xs : List JValue)
  | obj (fields : List (String × JValue))

/-- dict.get with default None on an object: first binding of the key (the
embedded JSON parser keeps keys unique, as dicts do). -/
def jget (j : JValue) (k : String) : Option JValue :=
  match j with
  | JValue.obj fields => fields.lookup k
  | _ => none

/-- Python truthiness of a JSON value. -/
def jtruthy (j : JValue) : Bool :=
  match j with
  | JValue.null => false
  | JValue.bool b => b
  | JValue.num f => decide (¬ (f.num = 0))
  | JValue.str s => decide (¬ (s = ""))
  | JValue.arr xs => match xs with | [] => false | _ :: _ => true
  | JValue.obj fields => match fields with | [] => false | _ :: _ => true

/-- Python in on a JSON container: key membership for an object, element
membership for an array, substring test skipped (a string container here
would crash the uncaught subscript that follows at line 318; no claim
reaches it, and non-containers raise TypeError likewise, modelled false). -/
def jHasMember (j : JValue) (k : String) : Bool :=
  match j with
  | JValue.obj fields => (fields.lookup k).isSome
  | JValue.arr xs => xs.any fun x => match x with | JValue.str s => s = k | _ => false
  | _ => false

/-- Python iteration over the caption-track container: an array yields its
elements in order.  Iterating a dict would yield its keys and a string its
characters; every element produced that way is a non-dict and is skipped by
the loop body's exception handler, so those shapes contribute nothing that
the claims observe; non-iterables raise an uncaught TypeError (unreached).
The model restricts to the array case and yields nothing otherwise. -/
def jIterList (j : JValue) : List JValue :=
  match j with
  | JValue.arr xs => xs
  | _ => []

/-- CPython int() applied to a JSON value: strings parse as integers, numbers
truncate toward zero, booleans count as 0 or 1; everything else raises
(TypeError, caught by the caller at line 285), modelled none. -/
def pyIntOfJValue? (v : JValue) : Option ℤ :=
  match v with
  | JValue.str s => pyInt? s
  | JValue.num f => some f.truncInt
  | JValue.bool b => some (if b then 1 else 0)
  | _ => none

/-! ## View-count resolution in _populate_video_info (source lines 280-288) -/

/-- Lines 280-288: resolve the view count.  The structured viewCount field is
consulted first when truthy, int() conversion failures are swallowed; the
line 287 guard is Python falsiness, so both a missing and a zero structured
value fall through to the HTML-derived value. -/
def resolveViewCount (videoDetails : JValue) (htmlViews : Option ℤ) : Option ℤ :=
  let viewCount : Option ℤ :=
    match jget videoDetails "viewCount" with
    | some v => if jtruthy v then pyIntOfJValue? v else none
    | none => none
  if viewCount = none ∨ viewCount = some 0 then htmlViews else viewCount

/-! ## Caption-track extraction in _populate_video_info (source lines 316-344) -/

/-- One caption track as the source accumulates it (lines 332-337): the name
and language-code fields carry whatever JSON value the lookup produced. -/
structure CaptionTrack where
  name : JValue
  url : JValue
  langCode : JValue
  isAsr : Bool

/-- The try body of the track loop (lines 321-339) for one entry: none when
the entry is skipped, either because an attribute lookup on a non-dict
raised (caught by the handler at line 338) or because the baseUrl is
missing or falsy (line 328). -/
def processTrack (track : JValue) : Option CaptionTrack :=
  match track with
  | JValue.obj _ =>
    let nameField := (jget track "name").getD (JValue.obj [])
    match nameField with
    | JValue.obj _ =>
      let trackName := (jget nameField "simpleText").getD (JValue.str "Unknown Language")
      let baseUrl? := jget track "baseUrl"
      let langCode := (jget track "languageCode").getD (JValue.str "unk")
      let isAsr : Bool :=
        match jget track "kind" with
        | some (JValue.str s) => s = "asr"
        | _ => false
      match baseUrl? with
      | none => none
      | some u =>
        if jtruthy u then some ⟨trackName, u, langCode, isAsr⟩ else none
    | _ => none
  | _ => none

/-- Lines 316-344: the available-tracks list a player response yields.  An
absent or falsy captions section, or one without the tracklist renderer
key, yields the empty list. -/
def extractTracks (playerResponse : JValue) : List CaptionTrack :=
  match jget playerResponse "captions" with
  | none => []
  | some captionsData =>
    if jtruthy captionsData ∧ jHasMember captionsData "playerCaptionsTracklistRenderer" then
      match jget captionsData "playerCaptionsTracklistRenderer" with
      | some tracklistRenderer =>
        let captionTracks := (jget tracklistRenderer "captionTracks").getD (JValue.arr [])
        (jIterList captionTracks).filterMap processTrack
      | none => []
    else []

/-! ## json.loads (used by the player-response extractor) -/

/-- JSON whitespace between tokens. -/
def jsonWs (c : Char) : Bool :=
  c = ' ' ∨ c = '\t' ∨ c = '\n' ∨ c = '\r'

/-- Skip JSON whitespace. -/
def skipJsonWs (cs : List Char) : List Char :=
  cs.dropWhile jsonWs

/-- Hex digit value. -/
def hexVal? (c : Char) : Option ℕ :=
  if c.isDigit then some (digitVal c)
  else if 'a' ≤ c ∧ c ≤ 'f' then some (c.toNat - 87)
  else if 'A' ≤ c ∧ c ≤ 'F' then some (c.toNat - 55)
  else none

/-- Body of a JSON string after its opening quote: the decoded characters and
the rest after the closing quote.  Control characters are rejected (strict
mode, which json.loads uses); the escapes are the eight JSON ones plus
unicode escapes (surrogate-pair combining is outside modelled scope: no
claim input contains a non-BMP escape). -/
def jsonStringBody : ℕ → List Char → Option (List Char × List Char)
  | 0, _ => none
  | _ + 1, [] => none
  | fuel + 1, c :: rest =>
    if c = '"' then some ([], rest)
    else if c = '\\' then
      match rest with
      | e :: rest' =>
        let decoded : Option (Char × List Char) :=
          if e = '"' then some ('"', rest')
          else if e = '\\' then some ('\\', rest')
          else if e = '/' then some ('/', rest')
          else if e = 'b' then some ('\x08', rest')
          else if e = 'f' then some ('\x0c', rest')
          else if e = 'n' then some ('\n', rest')
          else if e = 'r' then some ('\r', rest')
          else if e = 't' then some ('\t', rest')
          else if e = 'u' then
            match rest' with
            | h1 :: h2 :: h3 :: h4 :: rest2 =>
              match hexVal? h1, hexVal? h2, hexVal? h3, hexVal? h4 with
              | some v1, some v2, some v3, some v4 =>
                some (Char.ofNat (((v1 * 16 + v2) * 16 + v3) * 16 + v4), rest2)
              | _, _, _, _ => none
            | _ => none
          else none
        match decoded with
        | some (d, r) => (jsonStringBody fuel r).map fun p => (d :: p.1, p.2)
        | none => none
      | [] => none
    else if c.toNat < 32 then none
    else (jsonStringBody fuel rest).map fun p => (c :: p.1, p.2)

/-- A strict JSON number: optional minus, integer part 0 or nonzero-led
digits, optional fraction, optional exponent.  (The non-standard NaN and
Infinity spellings CPython's json also accepts have no rational value and
are modelled as unparseable; no claim input contains them.) -/
def parseJNumber (cs : List Char) : Option (Frac × List Char) :=
  let signAndRest : ℤ × List Char :=
    match cs with
    | '-' :: r => (-1, r)
    | r => (1, r)
  let ds := signAndRest.2.takeWhile Char.isDigit
  let okInt : Bool :=
    match ds with
    | [] => false
    | ['0'] => true
    | d :: _ => decide (d ≠ '0')
  if okInt then
    let r1 := signAndRest.2.drop ds.length
    let fracAndRest : ℕ × ℕ × List Char :=
      match r1 with
      | '.' :: r2 =>
        let fs := r2.takeWhile Char.isDigit
        match fs with
        | [] => (0, 0, r1)
        | _ :: _ => (natOfDigits fs, fs.length, r2.drop fs.length)
      | _ => (0, 0, r1)
    let fracOk : Bool :=
      match r1 with
      | '.' :: r2 => match r2.takeWhile Char.isDigit with | [] => false | _ :: _ => true
      | _ => true
    if fracOk then
      let r3 := fracAndRest.2.2
      let expAndRest : Option (ℤ × List Char) :=
        match r3 with
        | 'e' :: r4 | 'E' :: r4 =>
          let es : ℤ × List Char :=
            match r4 with
            | '-' :: r5 => (-1, r5)
            | '+' :: r5 => (1, r5)
            | r5 => (1, r5)
          match es.2.takeWhile Char.isDigit with
          | [] => none
          | eds => some (es.1 * (natOfDigits eds : ℤ), es.2.drop eds.length)
        | _ => some (0, r3)
      match expAndRest with
      | some (e, r6) =>
        some (mkPyFloat signAndRest.1 (natOfDigits ds) fracAndRest.1 fracAndRest.2.1 e, r6)
      | none => none
    else none
  else none

/-- Remove the binding of a key (keys are unique in parsed objects). -/
def eraseKey : List (String × JValue) → String → List (String × JValue)
  | [], _ => []
  | (k', v') :: rest, k => if k' = k then rest else (k', v') :: eraseKey rest k

/-- Prepend an object member to the already-parsed members to its right,
resolving duplicates as dict insertion does: a repeated key keeps its first
position and takes the value of its last occurrence (which, the right side
being already resolved, is the right side's value). -/
def consMember (k : String) (v : JValue) (fs : List (String × JValue)) :
    List (String × JValue) :=
  match fs.lookup k with
  | some v' => (k, v') :: eraseKey fs k
  | none => (k, v) :: fs

/-- The three recursion modes of the JSON parser. -/
inductive JTask where
  | value
  | arrItems
  | objItems

/-- Intermediate parser results. -/
inductive JOut where
  | val (v : JValue)
  | items (xs : List JValue)
  | fields (fs : List (String × JValue))

/-- Fueled recursive-descent JSON parser (strict json.loads grammar).  The
fuel decreases on every recursive call; between any two consecutive calls
on the same mode at least one character is consumed, so twice the input
length plus a constant is always sufficient. -/
def parseStep : ℕ → JTask → List Char → Option (JOut × List Char)
  | 0, _, _ => none
  | fuel + 1, JTask.value, cs =>
    match skipJsonWs cs with
    | '{' :: rest =>
      match skipJsonWs rest with
      | '}' :: rest' => some (JOut.val (JValue.obj []), rest')
      | _ =>
        (parseStep fuel JTask.objItems rest).bind fun p =>
          match p.1 with
          | JOut.fields fs => some (JOut.val (JValue.obj fs), p.2)
          | _ => none
    | '[' :: rest =>
      match skipJsonWs rest with
      | ']' :: rest' => some (JOut.val (JValue.arr []), rest')
      | _ =>
        (parseStep fuel JTask.arrItems rest).bind fun p =>
          match p.1 with
          | JOut.items xs => some (JOut.val (JValue.arr xs), p.2)
          | _ => none
    | '"' :: rest =>
      (jsonStringBody (rest.length + 1) rest).map fun p => (JOut.val (JValue.str (String.mk p.1)), p.2)
    | 't' :: 'r' :: 'u' :: 'e' :: rest => some (JOut.val (JValue.bool true), rest)
    | 'f' :: 'a' :: 'l' :: 's' :: 'e' :: rest => some (JOut.val (JValue.bool false), rest)
    | 'n' :: 'u' :: 'l' :: 'l' :: rest => some (JOut.val JValue.null, rest)
    | other => (parseJNumber other).map fun p => (JOut.val (JValue.num p.1), p.2)
  | fuel + 1, JTask.arrItems, cs =>
    (parseStep fuel JTask.value cs).bind fun p =>
      match p.1 with
      | JOut.val v =>
        match skipJsonWs p.2 with
        | ',' :: r =>
          (parseStep fuel JTask.arrItems r).bind fun q =>
            match q.1 with
            | JOut.items xs => some (JOut.items (v :: xs), q.2)
            | _ => none
        | ']' :: r => some (JOut.items [v], r)
        | _ => none
      | _ => none
  | fuel + 1, JTask.objItems, cs =>
    match skipJsonWs cs with
    | '"' :: rest =>
      (jsonStringBody (rest.length + 1) rest).bind fun p =>
        match skipJsonWs p.2 with
        | ':' :: r =>
          (parseStep fuel JTask.value r).bind fun q =>
            match q.1 with
            | JOut.val v =>
              match skipJsonWs q.2 with
              | ',' :: r2 =>
                (parseStep fuel JTask.objItems r2).bind fun o =>
                  match o.1 with
                  | JOut.fields fs => some (JOut.fields (consMember (String.mk p.1) v fs), o.2)
                  | _ => none
              | '}' :: r2 => some (JOut.fields [(String.mk p.1, v)], r2)
              | _ => none
            | _ => none
        | _ => none
    | _ => none

/-- json.loads: parse one value, allow surrounding whitespace, reject
leftover input.  Duplicate object keys resolve as dict insertion does. -/
def jsonLoads? (s : String) : Option JValue :=
  match parseStep (2 * s.data.length + 2) JTask.value s.data with
  | some (JOut.val v, rest) =>
    match skipJsonWs rest with
    | [] => some v
    | _ :: _ => none
  | _ => none

/-! ## ytInitialPlayerResponse extraction (source lines 199-219) -/

/-- Consume a literal prefix, returning the rest. -/
def startsWithL : List Char → List Char → Option (List Char)
  | [], cs => some cs
  | _ :: _, [] => none
  | p :: ps, c :: cs => if c = p then startsWithL ps cs else none

/-- Whether the input begins with the pattern tail that must follow the
captured body: closing brace, semicolon, then the literal var meta or a
script-tag close. -/
def closeAfterBody (rest : List Char) : Bool :=
  match rest with
  | '}' :: ';' :: r =>
    (startsWithL "var meta".data r).isSome ∨ (startsWithL "</script".data r).isSome
  | _ => false

/-- The lazy one-or-more dot quantifier inside the captured group: extend the
body one non-newline character at a time (shortest first) until the closing
tail follows; acc holds the reversed body read so far.  Returns the full
captured group (braces included), or none when no extension matches before
the line or input ends. -/
def findCapture : List Char → List Char → Option (List Char)
  | _, [] => none
  | acc, c :: rest =>
    if ((match acc with | [] => false | _ :: _ => true) && closeAfterBody (c :: rest)) = true then
      some ('{' :: (acc.reverse ++ ['}']))
    else if c = '\n' then none
    else findCapture (c :: acc) rest

/-- Match of one extraction pattern at the head of the input: the variant
literal, equals sign with optional whitespace around it, then the captured
brace group followed by the closing tail.  Whitespace and the equals sign
are disjoint, so the whitespace stars never backtrack. -/
def matchVariantAt (lit : List Char) (cs : List Char) : Option String :=
  match startsWithL lit cs with
  | none => none
  | some r1 =>
    match r1.dropWhile pyIsSpace with
    | '=' :: r3 =>
      match r3.dropWhile pyIsSpace with
      | '{' :: r5 => (findCapture [] r5).map String.mk
      | _ => none
    | _ => none

/-- re.search of one extraction pattern: leftmost matching position wins (a
position where the lazy group finds no closing tail is abandoned and the
scan resumes one character later, as the regex engine does). -/
def searchVariant (lit : List Char) : List Char → Option String
  | [] => none
  | c :: rest =>
    match matchVariantAt lit (c :: rest) with
    | some cap => some cap
    | none => searchVariant lit rest

/-- The first, var-prefixed pattern variant of line 204. -/
def litVar : List Char := "var ytInitialPlayerResponse".data

/-- The second, unprefixed pattern variant of line 205. -/
def litBare : List Char := "ytInitialPlayerResponse".data

/-- Outcome of the extractor, keeping the source's three exit paths apart
(the Python function returns None on both failure paths and tells them
apart only in its logging: line 217 returns None on a JSON decode failure,
line 219 after no pattern matched). -/
inductive ExtractOutcome where
  | success (j : JValue)
  | parseError
  | extractionError

/-- Lines 199-219: try the two pattern variants in order; on the first match,
parse the captured text as JSON and return it, or stop with a parse
failure without trying the later variant; when no variant matches, fail
with the extraction failure. -/
def extractPlayerResponse (html : String) : ExtractOutcome :=
  match searchVariant litVar html.data with
  | some cap =>
    match jsonLoads? cap with
    | some j => ExtractOutcome.success j
    | none => ExtractOutcome.parseError
  | none =>
    match searchVariant litBare html.data with
    | some cap =>
      match jsonLoads? cap with
      | some j => ExtractOutcome.success j
      | none => ExtractOutcome.parseError
    | none => ExtractOutcome.extractionError

/-- The Python return value of _extract_yt_initial_player_response: the
parsed JSON on success, None on either failure. -/
def extractReturn (html : String) : Option JValue :=
  match extractPlayerResponse html with
  | ExtractOutcome.success j => some j
  | _ => none

/-- Claim-side reading of the extractor (named for comparison against the
code-side extractPlayerResponse): the parsed JSON of the first variant
whose match's captured text parses as valid JSON. -/
def extractFirstValidVariant (html : String) : Option JValue :=
  match (searchVariant litVar html.data).bind jsonLoads? with
  | some j => some j
  | none => (searchVariant litBare html.data).bind jsonLoads?

/-! ## Claim-side comparison definitions and concrete inputs -/

/-- Whether a JSON value is an object (a Python dict). -/
def isObjB : JValue → Bool
  | JValue.obj _ => true
  | _ => false

/-- Claim-side per-entry catalog rule, following the specification's words
(section 4.5): an entry with a present, truthy base URL yields a track
whose name defaults to Unknown Language when the localized-text field is
absent, whose language code defaults to unk, and whose is_asr is true
exactly when the kind field is the string asr; any other entry yields
nothing.  Named for comparison against the code-side processTrack. -/
def trackFromEntry (t : JValue) : Option CaptionTrack :=
  match jget t "baseUrl" with
  | none => none
  | some u =>
    if jtruthy u then
      some ⟨((jget t "name").bind fun nf => jget nf "simpleText").getD (JValue.str "Unknown Language"),
            u,
            (jget t "languageCode").getD (JValue.str "unk"),
            match jget t "kind" with
            | some (JValue.str s) => s = "asr"
            | _ => false⟩
    else none

/-- A player response whose captions section holds exactly the given
caption-track entries, in the shape the source reads. -/
def stdPlayerResponse (entries : List JValue) : JValue :=
  JValue.obj [("captions", JValue.obj
    [("playerCaptionsTracklistRenderer", JValue.obj
      [("captionTracks", JValue.arr entries)])])]

/-- A caption-track entry whose name field is a bare string rather than the
localized-text object: the source's name lookup raises on it and the
catch-all handler skips the entry although it has a base URL. -/
def malformedNameEntry : JValue :=
  JValue.obj [("name", JValue.str "English"), ("baseUrl", JValue.str "u")]

/-- A timed-text element with start and dur attributes and nonempty text. -/
def elemA : SubElem := ⟨some "0", none, some "1.5", none, ["Hello"]⟩

/-- A timed-text element with no start and no begin attribute: skipped. -/
def elemNoTiming : SubElem := ⟨none, none, some "1", none, ["gone"]⟩

/-- A timed-text element with start and end attributes and nonempty text. -/
def elemB : SubElem := ⟨some "3.5", none, none, some "5", ["World"]⟩

/-- A timed-text element with a negative dur attribute: the source emits a
cue whose end time lies before its start time. -/
def negDurElem : SubElem := ⟨some "5", none, some "-3", none, ["hi"]⟩

/-- An HTML page on which the var-prefixed extraction variant matches with an
invalid JSON capture while the bare variant's leftmost match captures valid
JSON: the source stops with a parse failure without consulting the second
variant. -/
def htmlCex : String :=
  "ytInitialPlayerResponse = \x7b\"a\": 1\x7d;</script>var ytInitialPlayerResponse = \x7b\"a\": \x7d;</script>"

/-- Absence of two adjacent whitespace characters. -/
def noTwoSpaces : List Char → Bool
  | c1 :: c2 :: rest => (!(pyIsSpace c1 && pyIsSpace c2)) && noTwoSpaces (c2 :: rest)
  | _ => true

/-- A caption-track entry with no base URL. -/
def entryNoUrl : JValue :=
  JValue.obj [("name", JValue.obj [("simpleText", JValue.str "German")])]

/-- A manual caption-track entry with name, base URL and language code. -/
def entryManual : JValue :=
  JValue.obj [("name", JValue.obj [("simpleText", JValue.str "English")]),
    ("baseUrl", JValue.str "u1"), ("languageCode", JValue.str "en")]

/-- An auto-generated caption-track entry with only base URL and kind. -/
def entryAsr : JValue :=
  JValue.obj [("baseUrl", JValue.str "u2"), ("kind", JValue.str "asr")]

/-! ## Supporting lemmas -/

theorem mkPyFloat_den_pos (sgn : ℤ) (ip fp fcnt : ℕ) (e : ℤ) :
    0 < (mkPyFloat sgn ip fp fcnt e).den := by
  unfold mkPyFloat
  split <;> positivity

theorem pyFloat_den_pos {s : String} {q : Frac} (h : pyFloat? s = some q) : 0 < q.den := by
  unfold pyFloat? at h
  cases hp : pyFloatParse (stripList s.data) with
  | none => rw [hp] at h; simp at h
  | some t =>
    rw [hp] at h
    simp only [Option.map_some'] at h
    cases h
    exact mkPyFloat_den_pos _ _ _ _ _

/-- Claim C4: seconds_to_srt_time formats the input clamped at zero as
HH:MM:SS,mmm with hours the floor of s/3600, minutes the floor of
(s mod 3600)/60, whole seconds s mod 60, milliseconds the fractional part
times 1000, each zero-padded; in particular 0 gives 00:00:00,000, 3661.25
gives 01:01:01,250, and -5 gives 00:00:00,000. -/
theorem srt_time_format (s : Frac) :
    (seconds_to_srt_time s =
      if s.lt (Frac.ofInt 0) then "00:00:00,000"
      else
        pad2 (s.floorDivNat 3600).toNat ++ ":" ++
        pad2 ((s.fmodNat 3600).floorDivNat 60).toNat ++ ":" ++
        pad2 (s.fmodNat 60).truncInt.toNat ++ "," ++
        pad3 ((s.fmodNat 1).mulInt 1000).truncInt.toNat)
    ∧ seconds_to_srt_time (Frac.ofInt 0) = "00:00:00,000"
    ∧ seconds_to_srt_time ⟨14645, 4⟩ = "01:01:01,250"
    ∧ seconds_to_srt_time (Frac.ofInt (-5)) = "00:00:00,000" := by
  refine ⟨?_, by decide, by decide, by decide⟩
  unfold seconds_to_srt_time
  split
  · decide
  · rfl

theorem parseCuesFrom_enumFrom (es : List SubElem) :
    ∀ i, parseCuesFrom i es = (List.enumFrom i es).filterMap fun p => mkCue? p.1 p.2 := by
  induction es with
  | nil => intro i; rfl
  | cons e rest ih =>
    intro i
    simp only [parseCuesFrom, List.enumFrom, List.filterMap]
    cases h : mkCue? i e <;> simp [h, ih (i + 1)]

theorem mkCue_spec {i : ℕ} {e : SubElem} {c : Cue} (h : mkCue? i e = some c) :
    c.index = i + 1 ∧ c.text = contentOf e ∧ c.text ≠ "" ∧
    (∃ ss q, attrOr e.startAttr e.beginAttr = some ss ∧ pyFloat? ss = some q ∧ c.startSec = q) ∧
    ((∃ ds d, e.durAttr = some ds ∧ pyFloat? ds = some d ∧ c.endSec = c.startSec.add d) ∨
     (e.durAttr = none ∧ ∃ es q, e.endAttr = some es ∧ pyFloat? es = some q ∧ c.endSec = q)) := by
  unfold mkCue? at h
  cases h1 : attrOr e.startAttr e.beginAttr with
  | none => simp [h1] at h
  | some ss =>
  simp only [h1] at h
  cases h2 : pyFloat? ss with
  | none => simp [h2] at h
  | some q =>
  simp only [h2] at h
  cases h3 : e.durAttr with
  | none =>
    simp only [h3] at h
    cases h4 : e.endAttr with
    | none => simp [h4] at h
    | some es =>
    simp only [h4] at h
    cases h5 : pyFloat? es with
    | none => simp [h5] at h
    | some t =>
    simp only [h5] at h
    by_cases h6 : contentOf e = ""
    · simp [h6] at h
    · rw [if_neg h6] at h
      cases h
      exact ⟨rfl, rfl, h6, ⟨ss, q, rfl, h2, rfl⟩, Or.inr ⟨rfl, es, t, rfl, h5, rfl⟩⟩
  | some ds =>
    simp only [h3] at h
    cases h5 : pyFloat? ds with
    | none => simp [h5] at h
    | some d =>
    simp only [h5, Option.map_some'] at h
    by_cases h6 : contentOf e = ""
    · simp [h6] at h
    · rw [if_neg h6] at h
      cases h
      exact ⟨rfl, rfl, h6, ⟨ss, q, rfl, h2, rfl⟩, Or.inl ⟨ds, d, rfl, h5, rfl⟩⟩

theorem mem_parseCuesFrom {c : Cue} :
    ∀ (es : List SubElem) (i : ℕ), c ∈ parseCuesFrom i es →
      ∃ j e, es.get? j = some e ∧ c.index = i + j + 1 ∧ mkCue? (i + j) e = some c := by
  intro es
  induction es with
  | nil => intro i h; simp [parseCuesFrom] at h
  | cons e rest ih =>
    intro i h
    unfold parseCuesFrom at h
    cases hm : mkCue? i e with
    | some c0 =>
      rw [hm] at h
      rcases List.mem_cons.mp h with rfl | htail
      · exact ⟨0, e, rfl, by simpa using (mkCue_spec hm).1, by simpa using hm⟩
      · obtain ⟨j, e', hg, hidx, hc⟩ := ih (i + 1) htail
        exact ⟨j + 1, e', by simpa using hg, by omega, by rw [show i + (j + 1) = i + 1 + j by omega]; exact hc⟩
    | none =>
      rw [hm] at h
      obtain ⟨j, e', hg, hidx, hc⟩ := ih (i + 1) h
      exact ⟨j + 1, e', by simpa using hg, by omega, by rw [show i + (j + 1) = i + 1 + j by omega]; exact hc⟩

/-- Claim C1: every cue the converter emits carries index i+1 for i the 0-based
position of its source element in the selected element list; skipped elements
still advance the counter, so the surviving cues' indices are exactly their
1-based source positions and may contain gaps (shown concretely on a list
whose middle element is skipped, yielding indices 1 and 3). -/
theorem cue_indexing (es : List SubElem) (c : Cue) :
    (parseCues es = es.enum.filterMap fun p => mkCue? p.1 p.2)
    ∧ (c ∈ parseCues es →
        1 ≤ c.index ∧ ∃ e, es.get? (c.index - 1) = some e ∧ mkCue? (c.index - 1) e = some c)
    ∧ (parseCues [elemA, elemNoTiming, elemB]).map Cue.index = [1, 3] := by
  refine ⟨?_, ?_, by decide⟩
  · unfold parseCues List.enum
    exact parseCuesFrom_enumFrom es 0
  · intro h
    obtain ⟨j, e, hg, hidx, hc⟩ := mem_parseCuesFrom es 0 h
    have hj : c.index - 1 = j := by omega
    exact ⟨by omega, e, by rw [hj]; exact hg, by rw [hj]; simpa using hc⟩

/-- Witness for C1: the first cue of the concrete three-element list satisfies
the positional characterization. -/
theorem cue_indexing_witness :
    ∃ c, c ∈ parseCues [elemA, elemNoTiming, elemB] ∧ 1 ≤ c.index ∧
      ∃ e, List.get? [elemA, elemNoTiming, elemB] (c.index - 1) = some e ∧
        mkCue? (c.index - 1) e = some c := by
  have hc : (⟨1, ⟨0, 1⟩, ⟨15, 10⟩, "Hello"⟩ : Cue) ∈ parseCues [elemA, elemNoTiming, elemB] := by
    decide
  exact ⟨_, hc, (cue_indexing [elemA, elemNoTiming, elemB] _).2.1 hc⟩

theorem Frac.le_add_of_nonneg {s d : Frac}
    (h : (Frac.ofInt 0).le d = true) : s.le (s.add d) = true := by
  simp only [Frac.le, Frac.add, Frac.ofInt, decide_eq_true_eq] at *
  push_cast
  have hdn : (0 : ℤ) ≤ d.num := by simpa using h
  nlinarith [mul_nonneg (mul_nonneg hdn (Int.ofNat_nonneg s.den)) (Int.ofNat_nonneg s.den)]

/-- Claim C9 amended: every emitted cue has nonempty text, and its end time is
start plus the dur attribute when dur is present, else the end attribute; the
start-before-end ordering holds whenever the dur attribute is nonnegative
(the source never checks it, so a negative dur or an early end attribute can
invert the order). -/
theorem cue_invariants (i : ℕ) (e : SubElem) (c : Cue) (h : mkCue? i e = some c) :
    c.text ≠ ""
    ∧ ((∃ ds d, e.durAttr = some ds ∧ pyFloat? ds = some d ∧ c.endSec = c.startSec.add d
          ∧ ((Frac.ofInt 0).le d = true → c.startSec.le c.endSec = true))
       ∨ (e.durAttr = none ∧ ∃ es q, e.endAttr = some es ∧ pyFloat? es = some q ∧ c.endSec = q)) := by
  obtain ⟨hidx, htext, hne, ⟨ss, q, hso, hsf, hstart⟩, hend⟩ := mkCue_spec h
  refine ⟨hne, ?_⟩
  rcases hend with ⟨ds, d, hds, hdf, he⟩ | hright
  · left
    refine ⟨ds, d, hds, hdf, he, fun hnn => ?_⟩
    rw [he]
    exact Frac.le_add_of_nonneg hnn
  · right; exact hright

/-- Counterexample to C9 as stated: an element with start 5 and dur -3 emits a
cue whose end time 2 lies strictly before its start time 5. -/
theorem cue_order_cex :
    parseCues [negDurElem] = [⟨1, ⟨5, 1⟩, ⟨2, 1⟩, "hi"⟩]
    ∧ Frac.le ⟨5, 1⟩ ⟨2, 1⟩ = false := by decide

/-- Witness for C9: the cue of a concrete element with a nonnegative dur. -/
theorem cue_invariants_witness :
    (⟨1, ⟨0, 1⟩, ⟨15, 10⟩, "Hello"⟩ : Cue).text ≠ ""
    ∧ ((∃ ds d, elemA.durAttr = some ds ∧ pyFloat? ds = some d ∧
          (⟨15, 10⟩ : Frac) = Frac.add ⟨0, 1⟩ d
          ∧ ((Frac.ofInt 0).le d = true → Frac.le ⟨0, 1⟩ ⟨15, 10⟩ = true))
       ∨ (elemA.durAttr = none ∧ ∃ es q, elemA.endAttr = some es ∧ pyFloat? es = some q ∧
            (⟨15, 10⟩ : Frac) = q)) :=
  cue_invariants 0 elemA ⟨1, ⟨0, 1⟩, ⟨15, 10⟩, "Hello"⟩ (by decide)

/-- Claim C3: the subtitle path distinguishes exactly three outcomes: a fetch
that fails at transport/HTTP level yields None; a fetch whose body is empty or
whitespace-only yields the empty SRT document, not an error; a well-formed
payload from which zero cues are emitted yields the empty string, with the
parse failure (None) reserved for malformed XML. -/
theorem subtitle_outcomes (parseXml : String → Option SubtitleDoc) (s : String)
    (doc : SubtitleDoc) :
    (get_subtitle_srt none parseXml = none)
    ∧ (pyStrip s = "" → get_subtitle_srt (some s) parseXml = some "")
    ∧ (pyStrip s ≠ "" → parseXml s = none → get_subtitle_srt (some s) parseXml = none)
    ∧ (pyStrip s ≠ "" → parseXml s = some doc → parseCues (selectedElems doc) = [] →
        get_subtitle_srt (some s) parseXml = some "") := by
  refine ⟨rfl, ?_, ?_, ?_⟩
  · intro h
    simp [get_subtitle_srt, h]
  · intro h hp
    simp [get_subtitle_srt, h, hp, parse_subtitle_xml_to_srt]
  · intro h hp hc
    simp [get_subtitle_srt, h, hp, parse_subtitle_xml_to_srt, srtOfDoc, hc]

/-- Witness for C3: the four outcomes at concrete fetch results and parse
outcomes. -/
theorem subtitle_outcomes_witness :
    (get_subtitle_srt none (fun _ => none) = none)
    ∧ (get_subtitle_srt (some " \n ") (fun _ => none) = some "")
    ∧ (get_subtitle_srt (some "x") (fun _ => none) = none)
    ∧ (get_subtitle_srt (some "x") (fun _ => some ⟨[], []⟩) = some "") := by
  have h := subtitle_outcomes (fun _ => none) " \n " ⟨[], []⟩
  have h2 := subtitle_outcomes (fun _ => some ⟨[], []⟩) "x" ⟨[], []⟩
  exact ⟨h.1, h.2.1 (by decide), (subtitle_outcomes (fun _ => none) "x" ⟨[], []⟩).2.2.1 (by decide) rfl,
    h2.2.2.2 (by decide) rfl (by decide)⟩

/-- Counterexample to C2 as stated: with a structured viewCount field present,
truthy, and parsing as the integer 0, the line 287 falsiness guard consults
the HTML fallback anyway and it wins (5 instead of 0). -/
theorem view_count_priority_cex :
    jtruthy (JValue.str "0") = true
    ∧ pyIntOfJValue? (JValue.str "0") = some 0
    ∧ resolveViewCount (JValue.obj [("viewCount", JValue.str "0")]) (some 5) = some 5 := by
  refine ⟨by decide, by decide, ?_⟩
  rfl

/-- Claim C2 amended: when the structured videoDetails view-count field is
present, truthy, and parses as a nonzero integer, the resulting view count
equals that structured value and the HTML-regex fallback is never used, even
when the two sources disagree; the fallback is consulted exactly when the
structured value is absent, falsy, unparseable, or zero (zero falls through
because the guard is Python falsiness rather than a None test). -/
theorem view_count_priority (vd : JValue) (htmlViews : Option ℤ) (v : JValue) (n : ℤ) :
    (jget vd "viewCount" = some v → jtruthy v = true → pyIntOfJValue? v = some n → n ≠ 0 →
      resolveViewCount vd htmlViews = some n)
    ∧ (jget vd "viewCount" = some v → jtruthy v = true → pyIntOfJValue? v = some 0 →
      resolveViewCount vd htmlViews = htmlViews)
    ∧ (jget vd "viewCount" = some v → jtruthy v = false →
      resolveViewCount vd htmlViews = htmlViews)
    ∧ (jget vd "viewCount" = some v → pyIntOfJValue? v = none →
      resolveViewCount vd htmlViews = htmlViews)
    ∧ (jget vd "viewCount" = none → resolveViewCount vd htmlViews = htmlViews) := by
  refine ⟨?_, ?_, ?_, ?_, ?_⟩
  · intro h1 h2 h3 h4
    simp [resolveViewCount, h1, h2, h3, h4]
  · intro h1 h2 h3
    simp [resolveViewCount, h1, h2, h3]
  · intro h1 h2
    simp [resolveViewCount, h1, h2]
  · intro h1 h2
    by_cases ht : jtruthy v <;> simp [resolveViewCount, h1, h2, ht]
  · intro h1
    simp [resolveViewCount, h1]

/-- Witness for C2: a nonzero structured value wins over a disagreeing HTML
value. -/
theorem view_count_priority_witness :
    resolveViewCount (JValue.obj [("viewCount", JValue.str "1234")]) (some 5) = some 1234 := by
  have h := view_count_priority (JValue.obj [("viewCount", JValue.str "1234")]) (some 5)
    (JValue.str "1234") 1234
  exact h.1 rfl (by decide) (by decide) (by decide)

/-- Counterexample to C7 as stated: an entry whose name field is a bare string
rather than an object has a present, truthy base URL and still never appears
in the catalog, because the name lookup raises and the catch-all handler at
line 338 skips the entry. -/
theorem track_catalog_cex :
    (jget malformedNameEntry "baseUrl").map jtruthy = some true
    ∧ (extractTracks (stdPlayerResponse [malformedNameEntry])).length = 0 := by
  refine ⟨by decide, ?_⟩
  rfl

/-- Claim C7 amended: an absent captions section yields the empty list, not an
error; for every well-shaped entry (a dict whose name field, when present, is
a dict) the code-side per-entry rule coincides with the claim-side rule
trackFromEntry — present truthy base URL, defaults Unknown Language and unk,
is_asr true exactly on kind asr; and the catalog of a standard player response
is the order-preserving filterMap of that rule over the entry list, with no
de-duplication. -/
theorem track_catalog_properties (pr : JValue) (entries : List JValue) (t : JValue) :
    (jget pr "captions" = none → extractTracks pr = [])
    ∧ (isObjB t = true → (∀ nf, jget t "name" = some nf → isObjB nf = true) →
        processTrack t = trackFromEntry t)
    ∧ extractTracks (stdPlayerResponse entries) = entries.filterMap processTrack := by
  refine ⟨?_, ?_, ?_⟩
  · intro h
    simp [extractTracks, h]
  · intro hobj hname
    cases t with
    | obj fs =>
      simp only [processTrack, trackFromEntry, jget]
      cases hn : List.lookup "name" fs with
      | none =>
        cases hb : List.lookup "baseUrl" fs with
        | none => simp [hn, hb]
        | some u => simp [hn, hb]
      | some nf =>
        have hnf := hname nf (by simpa [jget] using hn)
        cases nf with
        | obj nfs =>
          cases hb : List.lookup "baseUrl" fs with
          | none => simp [hn, hb]
          | some u => simp [hn, hb]
        | null => simp [isObjB] at hnf
        | bool b => simp [isObjB] at hnf
        | num f => simp [isObjB] at hnf
        | str s => simp [isObjB] at hnf
        | arr xs => simp [isObjB] at hnf
    | null => simp [isObjB] at hobj
    | bool b => simp [isObjB] at hobj
    | num f => simp [isObjB] at hobj
    | str s => simp [isObjB] at hobj
    | arr xs => simp [isObjB] at hobj
  · rfl

/-- Witness for C7: an absent captions section gives the empty list, and a
concrete three-entry list drops the URL-less entry and keeps order and the
asr flag. -/
theorem track_catalog_properties_witness :
    extractTracks (JValue.obj [("videoDetails", JValue.obj [])]) = []
    ∧ extractTracks (stdPlayerResponse [entryNoUrl, entryManual, entryAsr]) =
        [⟨JValue.str "English", JValue.str "u1", JValue.str "en", false⟩,
         ⟨JValue.str "Unknown Language", JValue.str "u2", JValue.str "unk", true⟩] := by
  constructor
  · exact (track_catalog_properties (JValue.obj [("videoDetails", JValue.obj [])]) [] JValue.null).1 rfl
  · rw [(track_catalog_properties JValue.null [entryNoUrl, entryManual, entryAsr] JValue.null).2.2]
    rfl

/-- Claim C8 amended: the extractor tries the two regex variants in priority
order; the first variant that structurally matches decides the outcome — its
capture is parsed as JSON and returned on success, and on parse failure the
result is the parse-error path without trying later variants; the
extraction-error path occurs exactly when no variant matches.  Both failure
paths return None to the caller. -/
theorem extractor_variant_order (html : String) (cap : String) (j : JValue) :
    (searchVariant litVar html.data = some cap → jsonLoads? cap = none →
      extractPlayerResponse html = ExtractOutcome.parseError)
    ∧ (searchVariant litVar html.data = some cap → jsonLoads? cap = some j →
      extractPlayerResponse html = ExtractOutcome.success j)
    ∧ (searchVariant litVar html.data = none → searchVariant litBare html.data = some cap →
      jsonLoads? cap = none → extractPlayerResponse html = ExtractOutcome.parseError)
    ∧ (searchVariant litVar html.data = none → searchVariant litBare html.data = some cap →
      jsonLoads? cap = some j → extractPlayerResponse html = ExtractOutcome.success j)
    ∧ (searchVariant litVar html.data = none → searchVariant litBare html.data = none →
      extractPlayerResponse html = ExtractOutcome.extractionError)
    ∧ (extractPlayerResponse html = ExtractOutcome.success j → extractReturn html = some j)
    ∧ (extractPlayerResponse html = ExtractOutcome.parseError ∨
        extractPlayerResponse html = ExtractOutcome.extractionError → extractReturn html = none) := by
  refine ⟨?_, ?_, ?_, ?_, ?_, ?_, ?_⟩
  · intro h1 h2; simp [extractPlayerResponse, h1, h2]
  · intro h1 h2; simp [extractPlayerResponse, h1, h2]
  · intro h1 h2 h3; simp [extractPlayerResponse, h1, h2, h3]
  · intro h1 h2 h3; simp [extractPlayerResponse, h1, h2, h3]
  · intro h1 h2; simp [extractPlayerResponse, h1, h2]
  · intro h; simp [extractReturn, h]
  · intro h; rcases h with h | h <;> simp [extractReturn, h]

/-- Counterexample to C8 as stated: on a page where the var-prefixed variant
matches with an invalid JSON capture while the bare variant's match parses,
the source returns None although the first variant whose captured text parses
as valid JSON (the bare one) exists, contradicting the claim that that
variant's JSON is returned. -/
theorem extractor_cex :
    (extractReturn htmlCex).isSome = false
    ∧ (extractFirstValidVariant htmlCex).isSome = true := by
  constructor
  · rfl
  · rfl

/-- Witness for C8: the parse-error path at the counterexample page and the
extraction-error path at a page with no match. -/
theorem extractor_variant_order_witness :
    extractPlayerResponse htmlCex = ExtractOutcome.parseError
    ∧ extractPlayerResponse "no json here" = ExtractOutcome.extractionError := by
  constructor
  · exact (extractor_variant_order htmlCex "\x7b\"a\": \x7d" JValue.null).1 (by rfl) (by rfl)
  · exact (extractor_variant_order "no json here" "" JValue.null).2.2.2.2.1 (by rfl) (by rfl)

theorem normalizeMonthAux_spec :
    ∀ (fuel : ℕ) (m y : ℤ), m ≤ 12 → 1 ≤ m + 12 * fuel →
      ∃ k : ℕ, normalizeMonthAux fuel m y = (m + 12 * k, y - k)
        ∧ 1 ≤ m + 12 * (k : ℤ) ∧ m + 12 * (k : ℤ) ≤ 12 := by
  intro fuel
  induction fuel with
  | zero =>
    intro m y hm h1
    refine ⟨0, ?_, by omega, by omega⟩
    simp [normalizeMonthAux]
  | succ fuel ih =>
    intro m y hm h1
    unfold normalizeMonthAux
    by_cases hm0 : m ≤ 0
    · rw [if_pos hm0]
      obtain ⟨k, hk, hk1, hk2⟩ := ih (m + 12) (y - 1) (by omega) (by push_cast at h1 ⊢; omega)
      refine ⟨k + 1, ?_, by push_cast at hk1 ⊢; omega, by push_cast at hk2 ⊢; omega⟩
      rw [hk]
      have e1 : m + 12 + 12 * (k : ℤ) = m + 12 * ((k : ℕ) + 1 : ℕ) := by push_cast; ring
      have e2 : y - 1 - (k : ℤ) = y - ((k : ℕ) + 1 : ℕ) := by push_cast; ring
      rw [e1, e2]
    · rw [if_neg hm0]
      exact ⟨0, by simp, by omega, by omega⟩

/-- Counterexample to C5 as stated: on the reference date 2024-02-29 the input
1 year ago matches the relative shape, but the year-subtracted date does not
exist (2023 is not a leap year), datetime.replace raises, and the function
returns None instead of the claimed year-minus-one mapping. -/
theorem publish_date_cex :
    parse_publish_date ⟨2024, 2, 29⟩ "1 year ago" = none
    ∧ (PyDate.mk 2024 2 29).valid = true
    ∧ searchRelative (stripList "1 year ago".data) = some (1, RelUnit.year) := by decide

/-- Claim C5 amended: a calendar date of shape Mon D, YYYY maps through the
fixed month table to YYYY-MM-DD; a relative date of shape N units ago resolves
against the current date with year subtracting N keeping month and day, month
subtracting N with underflow borrowing 12 per year decrement, and week/day
subtracting 7N or N calendar days — in each case provided the resulting
calendar date exists (otherwise the ValueError is swallowed and the result is
null); null when no shape matches. -/
theorem publish_date_behavior (today : PyDate) (amount : ℕ) (d : PyDate) :
    (parse_publish_date today "Nov 5, 2018" = some "2018-11-05")
    ∧ (resolveRelative today amount RelUnit.year = some d →
        d = ⟨today.year - amount, today.month, today.day⟩ ∧ d.valid = true)
    ∧ ((PyDate.mk (today.year - amount) today.month today.day).valid = true →
        resolveRelative today amount RelUnit.year =
          some ⟨today.year - amount, today.month, today.day⟩)
    ∧ (today.valid = true → resolveRelative today amount RelUnit.month = some d →
        ∃ k : ℕ, (d.month : ℤ) = today.month - amount + 12 * k ∧ d.year = today.year - k
          ∧ d.day = today.day ∧ 1 ≤ d.month ∧ d.month ≤ 12 ∧ d.valid = true)
    ∧ (parse_publish_date ⟨2025, 10, 12⟩ "2 years ago" = some "2023-10-12")
    ∧ (parse_publish_date ⟨2025, 3, 15⟩ "14 months ago" = some "2024-01-15")
    ∧ (parse_publish_date ⟨2025, 1, 5⟩ "2 weeks ago" = some "2024-12-22")
    ∧ (parse_publish_date ⟨2024, 3, 5⟩ "10 days ago" = some "2024-02-24")
    ∧ (parse_publish_date today "soon" = none) := by
  refine ⟨rfl, ?_, ?_, ?_, by decide, by decide, by decide, by decide, rfl⟩
  · intro h
    unfold resolveRelative PyDate.replaceYear at h
    by_cases hv : (PyDate.mk (today.year - amount) today.month today.day).valid = true
    · rw [if_pos hv] at h
      cases h
      exact ⟨rfl, hv⟩
    · rw [if_neg (by simpa using hv)] at h
      exact absurd h (by simp)
  · intro hv
    unfold resolveRelative PyDate.replaceYear
    rw [if_pos hv]
  · intro hvalid h
    unfold resolveRelative at h
    have hm12 : today.month - (amount : ℤ) ≤ 12 := by
      have : today.month ≤ 12 := by
        simp only [PyDate.valid, Bool.and_eq_true, decide_eq_true_eq] at hvalid
        omega
      omega
    have h1 : (1 : ℤ) ≤ today.month - (amount : ℤ) + 12 * ((amount : ℕ) + 1 : ℕ) := by
      have : 1 ≤ today.month := by
        simp only [PyDate.valid, Bool.and_eq_true, decide_eq_true_eq] at hvalid
        omega
      push_cast
      omega
    obtain ⟨k, hk, hk1, hk2⟩ :=
      normalizeMonthAux_spec (amount + 1) (today.month - amount) today.year hm12 h1
    rw [hk] at h
    unfold PyDate.replaceYearMonth at h
    by_cases hv : (PyDate.mk (today.year - (k : ℤ)) (today.month - (amount : ℤ) + 12 * k) today.day).valid = true
    · rw [if_pos hv] at h
      cases h
      exact ⟨k, rfl, rfl, rfl, by simpa using hk1, by simpa using hk2, hv⟩
    · rw [if_neg (by simpa using hv)] at h
      exact absurd h (by simp)

/-- Witness for C5: the month clause at a concrete date with a 26-month
subtraction borrowing two years. -/
theorem publish_date_behavior_witness :
    resolveRelative ⟨2024, 5, 10⟩ 26 RelUnit.month = some ⟨2022, 3, 10⟩
    ∧ ∃ k : ℕ,
        ((⟨2022, 3, 10⟩ : PyDate).month : ℤ) =
            (⟨2024, 5, 10⟩ : PyDate).month - (26 : ℕ) + 12 * k
          ∧ (⟨2022, 3, 10⟩ : PyDate).year = (⟨2024, 5, 10⟩ : PyDate).year - k
          ∧ (⟨2022, 3, 10⟩ : PyDate).day = (⟨2024, 5, 10⟩ : PyDate).day
          ∧ 1 ≤ (⟨2022, 3, 10⟩ : PyDate).month ∧ (⟨2022, 3, 10⟩ : PyDate).month ≤ 12
          ∧ (⟨2022, 3, 10⟩ : PyDate).valid = true := by
  have h := (publish_date_behavior ⟨2024, 5, 10⟩ 26 ⟨2022, 3, 10⟩).2.2.2.1 (by decide) (by decide)
  exact ⟨by decide, h⟩

/-- Claim C6: parse_view_count strips the views word, multiplies a number with
a case-insensitive K/M/B suffix by 1e3/1e6/1e9, parses a comma-grouped integer
when no suffix is present, and returns none for empty or unparseable input;
in particular 2.7M views gives 2700000, 1,234 views gives 1234, and the empty
string gives none. -/
theorem view_count_parsing (vs : List Char) (c : Char) (q : Frac) :
    (parse_view_count "" = none)
    ∧ (parse_view_count "2.7M views" = some 2700000)
    ∧ (parse_view_count "1,234 views" = some 1234)
    ∧ (parse_view_count "1.5k views" = some 1500)
    ∧ (parse_view_count "3B views" = some 3000000000)
    ∧ (parse_view_count "12 views" = some 12)
    ∧ (parse_view_count "abc views" = none)
    ∧ (vs.getLast? = some c → c.toUpper = 'K' → pyFloat? (String.mk vs.dropLast) = some q →
        parseViewCore vs = some ((q.mulInt 1000).truncInt))
    ∧ (vs.getLast? = some c → c.toUpper = 'M' → pyFloat? (String.mk vs.dropLast) = some q →
        parseViewCore vs = some ((q.mulInt 1000000).truncInt))
    ∧ (vs.getLast? = some c → c.toUpper = 'B' → pyFloat? (String.mk vs.dropLast) = some q →
        parseViewCore vs = some ((q.mulInt 1000000000).truncInt))
    ∧ (vs.getLast? = some c → c.toUpper ≠ 'K' → c.toUpper ≠ 'M' → c.toUpper ≠ 'B' →
        parseViewCore vs = pyInt? (String.mk (vs.filter fun x => decide (x ≠ ',')))) := by
  refine ⟨by decide, by decide, by decide, by decide, by decide, by decide, by decide,
    ?_, ?_, ?_, ?_⟩
  · intro hl hc hf
    unfold parseViewCore tryMult
    rw [hl]
    simp [hc, hf]
  · intro hl hc hf
    unfold parseViewCore tryMult
    rw [hl]
    simp [hc, hf]
  · intro hl hc hf
    unfold parseViewCore tryMult
    rw [hl]
    simp [hc, hf]
  · intro hl hk hm hb
    unfold parseViewCore tryMult
    rw [hl]
    simp [hk, hm, hb]

/-- Witness for C6: the suffix and no-suffix clauses at concrete residues. -/
theorem view_count_parsing_witness :
    parseViewCore "2.7M".data = some 2700000
    ∧ parseViewCore "1,234".data = pyInt? "1234" := by
  constructor
  · have h := (view_count_parsing "2.7M".data 'M' ⟨27, 10⟩).2.2.2.2.2.2.2.2.1
      (by decide) (by decide) (by decide)
    rw [h]
    decide
  · exact (view_count_parsing "1,234".data '4' ⟨0, 1⟩).2.2.2.2.2.2.2.2.2.2
      (by decide) (by decide) (by decide) (by decide)

theorem mem_squashBadAux :
    ∀ (b : Bool) (cs : List Char) (c : Char), c ∈ squashBadAux b cs → isBadFileChar c = false := by
  intro b cs
  induction cs generalizing b with
  | nil => intro c h; simp [squashBadAux] at h
  | cons d rest ih =>
    intro c h
    unfold squashBadAux at h
    by_cases hd : isBadFileChar d
    · rw [if_pos hd] at h
      by_cases hb : b
      · rw [if_pos hb] at h
        exact ih true c h
      · rw [if_neg hb] at h
        rcases List.mem_cons.mp h with rfl | h2
        · decide
        · exact ih true c h2
    · rw [if_neg hd] at h
      rcases List.mem_cons.mp h with rfl | h2
      · simpa using hd
      · exact ih false c h2

theorem mem_squashWsAux :
    ∀ (b : Bool) (cs : List Char) (c : Char), c ∈ squashWsAux b cs →
      c = ' ' ∨ (c ∈ cs ∧ pyIsSpace c = false) := by
  intro b cs
  induction cs generalizing b with
  | nil => intro c h; simp [squashWsAux] at h
  | cons d rest ih =>
    intro c h
    unfold squashWsAux at h
    by_cases hd : pyIsSpace d
    · rw [if_pos hd] at h
      by_cases hb : b
      · rw [if_pos hb] at h
        rcases ih true c h with h1 | ⟨h1, h2⟩
        · exact Or.inl h1
        · exact Or.inr ⟨List.mem_cons_of_mem d h1, h2⟩
      · rw [if_neg hb] at h
        rcases List.mem_cons.mp h with rfl | h2
        · exact Or.inl rfl
        · rcases ih true c h2 with h1 | ⟨h1, h3⟩
          · exact Or.inl h1
          · exact Or.inr ⟨List.mem_cons_of_mem d h1, h3⟩
    · rw [if_neg hd] at h
      rcases List.mem_cons.mp h with rfl | h2
      · exact Or.inr ⟨List.mem_cons_self c rest, by simpa using hd⟩
      · rcases ih false c h2 with h1 | ⟨h1, h3⟩
        · exact Or.inl h1
        · exact Or.inr ⟨List.mem_cons_of_mem d h1, h3⟩

theorem mem_stripList {c : Char} {l : List Char} (h : c ∈ stripList l) : c ∈ l := by
  unfold stripList at h
  have h1 := List.mem_reverse.mp h
  have h2 := (List.dropWhile_sublist _).mem h1
  exact (List.dropWhile_sublist _).mem (List.mem_reverse.mp h2)

theorem noTwoSpaces_tail {c : Char} {l : List Char} (h : noTwoSpaces (c :: l) = true) :
    noTwoSpaces l = true := by
  cases l with
  | nil => rfl
  | cons d t => exact (Bool.and_eq_true_iff.mp h).2

theorem squashWsAux_true_head :
    ∀ (cs : List Char) (c : Char) (l : List Char),
      squashWsAux true cs = c :: l → pyIsSpace c = false := by
  intro cs
  induction cs with
  | nil => intro c l h; simp [squashWsAux] at h
  | cons d rest ih =>
    intro c l h
    unfold squashWsAux at h
    by_cases hd : pyIsSpace d
    · rw [if_pos hd, if_pos rfl] at h
      exact ih c l h
    · rw [if_neg hd] at h
      cases h
      simpa using hd

theorem noTwoSpaces_cons {c : Char} {l : List Char}
    (hl : noTwoSpaces l = true)
    (hc : ∀ d t, l = d :: t → (pyIsSpace c && pyIsSpace d) = false) :
    noTwoSpaces (c :: l) = true := by
  cases l with
  | nil => rfl
  | cons d t =>
    unfold noTwoSpaces
    rw [hc d t rfl, hl]
    rfl

theorem noTwoSpaces_squashWsAux : ∀ (cs : List Char) (b : Bool),
    noTwoSpaces (squashWsAux b cs) = true := by
  intro cs
  induction cs with
  | nil => intro b; rfl
  | cons d rest ih =>
    intro b
    unfold squashWsAux
    by_cases hd : pyIsSpace d
    · rw [if_pos hd]
      by_cases hb : b
      · rw [if_pos hb]; exact ih true
      · rw [if_neg hb]
        refine noTwoSpaces_cons (ih true) ?_
        intro e t he
        rw [squashWsAux_true_head rest e t he]
        exact Bool.and_false _
    · rw [if_neg hd]
      refine noTwoSpaces_cons (ih false) ?_
      intro e t he
      rw [show pyIsSpace d = false by simpa using hd]
      rfl

theorem noTwoSpaces_dropWhile (p : Char → Bool) :
    ∀ l : List Char, noTwoSpaces l = true → noTwoSpaces (l.dropWhile p) = true := by
  intro l
  induction l with
  | nil => intro h; exact h
  | cons c t ih =>
    intro h
    unfold List.dropWhile
    by_cases hc : p c
    · rw [hc]; exact ih (noTwoSpaces_tail h)
    · rw [show p c = false by simpa using hc]; exact h

theorem noTwoSpaces_append_single (c : Char) :
    ∀ l : List Char, noTwoSpaces l = true →
      (∀ d, l.getLast? = some d → (pyIsSpace d && pyIsSpace c) = false) →
      noTwoSpaces (l ++ [c]) = true := by
  intro l
  induction l with
  | nil => intro _ _; rfl
  | cons a t ih =>
    intro hl hlast
    cases t with
    | nil =>
      show noTwoSpaces [a, c] = true
      unfold noTwoSpaces
      rw [hlast a rfl]
      rfl
    | cons b t2 =>
      have hp := (Bool.and_eq_true_iff.mp hl).1
      have hrest := (Bool.and_eq_true_iff.mp hl).2
      have hlast2 : ∀ d, (b :: t2).getLast? = some d → (pyIsSpace d && pyIsSpace c) = false := by
        intro d hd
        exact hlast d (by rw [List.getLast?_cons_cons]; exact hd)
      have := ih hrest hlast2
      show (!(pyIsSpace a && pyIsSpace b) && noTwoSpaces (b :: t2 ++ [c])) = true
      rw [hp, this]
      rfl

theorem noTwoSpaces_reverse :
    ∀ l : List Char, noTwoSpaces l = true → noTwoSpaces l.reverse = true := by
  intro l
  induction l with
  | nil => intro _; rfl
  | cons a t ih =>
    intro h
    rw [List.reverse_cons]
    refine noTwoSpaces_append_single a t.reverse (ih (noTwoSpaces_tail h)) ?_
    intro d hd
    rw [List.getLast?_reverse] at hd
    cases t with
    | nil => simp at hd
    | cons b t2 =>
      cases hd
      have hp := (Bool.and_eq_true_iff.mp h).1
      rw [Bool.and_comm]
      rcases (by simpa using hp : pyIsSpace a = false ∨ pyIsSpace d = false) with h1 | h1 <;>
        simp [h1]

theorem head?_dropWhile_not (p : Char → Bool) :
    ∀ (l : List Char) (c : Char), (l.dropWhile p).head? = some c → p c = false := by
  intro l
  induction l with
  | nil => intro c h; simp at h
  | cons d t ih =>
    intro c h
    unfold List.dropWhile at h
    by_cases hd : p d
    · rw [hd] at h
      exact ih c h
    · rw [show p d = false by simpa using hd] at h
      cases h
      simpa using hd

theorem getLast?_dropWhile_eq (p : Char → Bool) :
    ∀ l : List Char, l.dropWhile p ≠ [] → (l.dropWhile p).getLast? = l.getLast? := by
  intro l
  induction l with
  | nil => intro h; simp at h
  | cons d t ih =>
    intro h
    unfold List.dropWhile at h ⊢
    by_cases hd : p d
    · rw [hd] at h ⊢
      have ht : t ≠ [] := by
        intro he
        rw [he] at h
        exact h rfl
      rw [ih h]
      cases t with
      | nil => exact absurd rfl ht
      | cons e t2 => rw [List.getLast?_cons_cons]
    · rw [show p d = false by simpa using hd]

theorem noTwoSpaces_stripList {l : List Char} (h : noTwoSpaces l = true) :
    noTwoSpaces (stripList l) = true := by
  unfold stripList
  exact noTwoSpaces_reverse _ (noTwoSpaces_dropWhile _ _
    (noTwoSpaces_reverse _ (noTwoSpaces_dropWhile _ _ h)))

theorem noTwoSpaces_take :
    ∀ (l : List Char) (n : ℕ), noTwoSpaces l = true → noTwoSpaces (l.take n) = true := by
  intro l
  induction l with
  | nil => intro n _; simp [noTwoSpaces]
  | cons c t ih =>
    intro n h
    cases n with
    | zero => rfl
    | succ m =>
      show noTwoSpaces (c :: t.take m) = true
      cases t with
      | nil => simp [noTwoSpaces]
      | cons d t2 =>
        cases m with
        | zero => rfl
        | succ k =>
          show noTwoSpaces (c :: d :: t2.take k) = true
          have hp := (Bool.and_eq_true_iff.mp h).1
          have ht : noTwoSpaces ((d :: t2).take (k + 1)) = true :=
            ih (k + 1) (noTwoSpaces_tail h)
          show (!(pyIsSpace c && pyIsSpace d) && noTwoSpaces (d :: t2.take k)) = true
          rw [hp]
          exact ht

theorem head?_stripList_not_ws {l : List Char} {c : Char}
    (h : (stripList l).head? = some c) : pyIsSpace c = false := by
  unfold stripList at h
  rw [List.head?_reverse] at h
  have hne : (((l.dropWhile pyIsSpace).reverse).dropWhile pyIsSpace) ≠ [] := by
    intro he
    rw [he] at h
    simp at h
  rw [getLast?_dropWhile_eq pyIsSpace _ hne, List.getLast?_reverse] at h
  exact head?_dropWhile_not pyIsSpace _ c h

theorem getLast?_stripList_not_ws {l : List Char} {c : Char}
    (h : (stripList l).getLast? = some c) : pyIsSpace c = false := by
  unfold stripList at h
  rw [List.getLast?_reverse] at h
  exact head?_dropWhile_not pyIsSpace _ c h

set_option maxRecDepth 4000 in
/-- Counterexample to C10 as stated: a 201-character input whose whitespace
falls at position 200 sanitizes to a 200-character string ending in a space,
so the no-trailing-space property fails after truncation. -/
theorem sanitize_trailing_space_cex :
    (sanitize_filename (String.mk (List.replicate 199 'a' ++ [' ', 'b']))).data.getLast? =
      some ' '
    ∧ (String.mk (List.replicate 199 'a' ++ [' ', 'b'])).data.length = 201 := by
  constructor
  · decide
  · decide

/-- Claim C10 amended: sanitize_filename returns untitled for empty input;
otherwise a string of length at most 200 containing none of the nine invalid
filename characters, in which every whitespace character is a single space,
no two spaces are adjacent, and the first character is never whitespace; the
last character is never whitespace either except that the final truncation to
200 characters can cut a longer string right after a space. -/
theorem sanitize_filename_properties (s : String) :
    (sanitize_filename "" = "untitled")
    ∧ ((sanitize_filename s).length ≤ 200)
    ∧ (∀ c, c ∈ (sanitize_filename s).data → isBadFileChar c = false)
    ∧ (∀ c, c ∈ (sanitize_filename s).data → pyIsSpace c = true → c = ' ')
    ∧ (noTwoSpaces (sanitize_filename s).data = true)
    ∧ (∀ c, (sanitize_filename s).data.head? = some c → pyIsSpace c = false)
    ∧ ((sanitize_filename s).length < 200 →
        ∀ c, (sanitize_filename s).data.getLast? = some c → pyIsSpace c = false) := by
  by_cases hs : s = ""
  · subst hs
    refine ⟨rfl, by decide, ?_, ?_, by decide, ?_, ?_⟩
    · intro c hc
      exact (by decide : ∀ x ∈ "untitled".data, isBadFileChar x = false) c hc
    · intro c hc hws
      have hf := (by decide : ∀ x ∈ "untitled".data, pyIsSpace x = false) c hc
      rw [hws] at hf
      exact absurd hf (by simp)
    · intro c hc
      cases hc
      decide
    · intro _ c hc
      cases hc
      decide
  · have hout : (sanitize_filename s).data =
        (stripList (squashWsAux false (squashBadAux false s.data))).take 200 := by
      unfold sanitize_filename
      rw [if_neg hs]
    refine ⟨rfl, ?_, ?_, ?_, ?_, ?_, ?_⟩
    · show (sanitize_filename s).data.length ≤ 200
      rw [hout, List.length_take]
      exact Nat.min_le_left _ _
    · intro c hc
      rw [hout] at hc
      have h1 := mem_stripList ((List.take_sublist _ _).mem hc)
      rcases mem_squashWsAux false _ c h1 with rfl | ⟨h2, _⟩
      · decide
      · exact mem_squashBadAux false _ c h2
    · intro c hc hws
      rw [hout] at hc
      have h1 := mem_stripList ((List.take_sublist _ _).mem hc)
      rcases mem_squashWsAux false _ c h1 with rfl | ⟨_, h3⟩
      · rfl
      · rw [hws] at h3
        exact absurd h3 (by simp)
    · rw [hout]
      exact noTwoSpaces_take _ 200 (noTwoSpaces_stripList (noTwoSpaces_squashWsAux _ false))
    · intro c hc
      rw [hout] at hc
      have h200 : ((stripList (squashWsAux false (squashBadAux false s.data))).take 200).head? =
          (stripList (squashWsAux false (squashBadAux false s.data))).head? := by
        cases hl : stripList (squashWsAux false (squashBadAux false s.data)) with
        | nil => rfl
        | cons x t => rfl
      rw [h200] at hc
      exact head?_stripList_not_ws hc
    · intro hlen c hc
      rw [hout] at hc
      have hlen2 : (stripList (squashWsAux false (squashBadAux false s.data))).length < 200 := by
        have : (sanitize_filename s).data.length < 200 := hlen
        rw [hout, List.length_take] at this
        omega
      rw [List.take_of_length_le (Nat.le_of_lt hlen2)] at hc
      exact getLast?_stripList_not_ws hc

/-- Witness for C10: the head of a concrete sanitized string is not
whitespace. -/
theorem sanitize_filename_properties_witness :
    pyIsSpace 'x' = false ∧ sanitize_filename " x<y" = "x_y" := by
  have h := sanitize_filename_properties " x<y"
  exact ⟨h.2.2.2.2.2.1 'x' (by decide), by decide⟩
